import Mathlib

/-!
Verification development for the schrddl DDL fuzzer core (src/ddl/ddl_ops.go).

The Go source is shallowly embedded: pure fragments become Lean functions,
mutation of the shadow catalog becomes explicit state passing, Go `error`
results become `Option String` or `Except`, and Go runtime panics (nil
pointer dereference, index out of range) become distinguished error
constructors.  Machine integers (`int`, job ids, reference counters) are
modelled as `Int`; none of the verified code paths depends on 64-bit
overflow.  Helper entities whose definitions live outside the provided
source file (the shadow-catalog structures and their small accessors) are
reconstructed from the specification's data model; each such definition
carries a doc comment starting with "Modelled from the spec:".
-/

namespace Schrddl

/-- The DDL kinds, from the `DDLKind` constant block of ddl_ops.go
(lines 77-102).  The Go sentinel `ddlKindNil` is never produced by
`mapOfDDLKind` nor attached to a task, so it is omitted. -/
inductive DDLKind where
  | addTable
  | addIndex
  | addColumn
  | createSchema
  | createView
  | dropTable
  | dropIndex
  | dropColumn
  | dropSchema
  | renameTable
  | renameIndex
  | truncateTable
  | shardRowID
  | rebaseAutoID
  | setDefaultValue
  | modifyColumn
  | modifyTableComment
  | modifyTableCharsetAndCollate
deriving DecidableEq, Repr, Fintype

/-- `mapOfDDLKind` (ddl_ops.go lines 104-127): decode a history row's
JOB_TYPE string; unknown strings yield `none` (Go: `ok == false`). -/
def mapOfDDLKind (s : String) : Option DDLKind :=
  if s = "create schema" then some .createSchema
  else if s = "create table" then some .addTable
  else if s = "add index" then some .addIndex
  else if s = "add column" then some .addColumn
  else if s = "drop schema" then some .dropSchema
  else if s = "drop table" then some .dropTable
  else if s = "drop index" then some .dropIndex
  else if s = "drop column" then some .dropColumn
  else if s = "create view" then some .createView
  else if s = "rename table" then some .renameTable
  else if s = "rename index" then some .renameIndex
  else if s = "truncate table" then some .truncateTable
  else if s = "shard row ID" then some .shardRowID
  else if s = "rebase auto_increment ID" then some .rebaseAutoID
  else if s = "set default value" then some .setDefaultValue
  else if s = "modify table comment" then some .modifyTableComment
  else if s = "modify table charset and collate" then some .modifyTableCharsetAndCollate
  else if s = "modify column" then some .modifyColumn
  else none

/-- A parsed history row, Go struct `ddlJob` (ddl_ops.go lines 179-187).
`tableID` and `schemaID` are carried as opaque strings, exactly as in the
source. -/
structure DdlJob where
  id : Int
  schemaName : String
  tableName : String
  k : DDLKind
  jobState : String
  tableID : String
  schemaID : String
deriving DecidableEq, Repr

/-- The name/id pair of a `*ddlTestTable` as read by the dispatcher.  The
matching and logging code of ddl_ops.go touches only `name` and `id` of
the referenced table, so the task-level embedding carries just those. -/
structure TblRef where
  name : String
  id : String
deriving DecidableEq, Repr

/-- The name/id pair of a `*ddlTestSchema` as read by the dispatcher. -/
structure SchemaRef where
  name : String
  id : String
deriving DecidableEq, Repr

/-- The name/id pair of a `*ddlTestView` as read by the dispatcher. -/
structure ViewRef where
  name : String
  id : String
deriving DecidableEq, Repr

/-- Go struct `ddlJobTask` (ddl_ops.go lines 191-200).  The three nilable
info pointers become `Option`; the recorded remote error `err` becomes
`Option String` (`none` = Go `nil`).  The opaque `arg` pointer is not
inspected by the dispatcher and is omitted here; the per-kind argument
records appear below with their appliers. -/
structure DdlJobTask where
  ddlID : Int
  k : DDLKind
  tblInfo : Option TblRef
  schemaInfo : Option SchemaRef
  viewInfo : Option ViewRef
  sql : String
  err : Option String
deriving DecidableEq, Repr

/-- A zero task (Go zero value), used as the default of safe lookups whose
indices are proved in range. -/
def dummyTask : DdlJobTask :=
  { ddlID := 0, k := .addTable, tblInfo := none, schemaInfo := none,
    viewInfo := none, sql := "", err := none }

/- ### strconv.Atoi -/

/-- Decimal digit value of a character, else `none`. -/
def digitVal (c : Char) : Option Nat :=
  if '0' ≤ c ∧ c ≤ '9' then some (c.toNat - '0'.toNat) else none

/-- Accumulate decimal digits; any non-digit makes the parse fail. -/
def natDigitsAux : Nat → List Char → Option Nat
  | acc, [] => some acc
  | acc, c :: cs =>
    match digitVal c with
    | some d => natDigitsAux (acc * 10 + d) cs
    | none => none

/-- A non-empty all-digit string parses to its value; otherwise `none`. -/
def natDigits : List Char → Option Nat
  | [] => none
  | cs => natDigitsAux 0 cs

/-- Model of Go `strconv.Atoi` (used by getHistoryDDLJobs on JOB_ID):
optional sign, then a non-empty run of decimal digits.  The Go version
additionally fails on 64-bit overflow; job ids are far below that bound
and no theorem below depends on overflow behaviour. -/
def atoi (s : String) : Option Int :=
  match s.data with
  | '-' :: rest => (natDigits rest).map (fun n => -(n : Int))
  | '+' :: rest => (natDigits rest).map (fun n => (n : Int))
  | cs => (natDigits cs).map (fun n => (n : Int))

/- ### getHistoryDDLJobs (ddl_ops.go lines 1405-1487), row-decoding part.

The SQL round trip collects each result row of `admin show ddl jobs` into
a `[]string` (`actualRows`); the embedding starts from that row list. -/

/-- Errors (including runtime panics) of the history decoding loop. -/
inductive HistErr where
  | noEnoughColumn (row : List String)
  | atoiError (field : String)
  | indexOutOfRange (i : Nat) (row : List String)
deriving DecidableEq, Repr

/-- Read `row[i]`; a Go out-of-range panic becomes an explicit error. -/
def rowGet (row : List String) (i : Nat) : Except HistErr String :=
  match row[i]? with
  | some v => .ok v
  | none => .error (.indexOutOfRange i row)

/-- One iteration of the decoding loop of getHistoryDDLJobs
(ddl_ops.go lines 1460-1485): guard `len(row) < 9`, parse JOB_ID, skip
rows with `id <= lastDDLID`, decode JOB_TYPE (unknown kinds skipped),
then build the `ddlJob` from fields 1, 2, 5, 6 and 9.  `pure none` is a
row skipped by `continue`. -/
def parseRow (lastDDLID : Int) (row : List String) : Except HistErr (Option DdlJob) :=
  if row.length < 9 then
    .error (.noEnoughColumn row)
  else
    match rowGet row 0 with
    | .error e => .error e
    | .ok s0 =>
      match atoi s0 with
      | none => .error (.atoiError s0)
      | some id =>
        if id ≤ lastDDLID then .ok none
        else
          match rowGet row 3 with
          | .error e => .error e
          | .ok s3 =>
            match mapOfDDLKind s3 with
            | none => .ok none
            | some k =>
              -- the Go struct literal reads fields 1, 2, 5, 6 and 9 in
              -- this order; the first out-of-range read panics.
              match rowGet row 1, rowGet row 2, rowGet row 5,
                    rowGet row 6, rowGet row 9 with
              | .ok s1, .ok s2, .ok s5, .ok s6, .ok s9 =>
                .ok (some { id := id, schemaName := s1, tableName := s2, k := k,
                            schemaID := s5, tableID := s6, jobState := s9 })
              | .error e, _, _, _, _ => .error e
              | _, .error e, _, _, _ => .error e
              | _, _, .error e, _, _ => .error e
              | _, _, _, .error e, _ => .error e
              | _, _, _, _, .error e => .error e

/-- The decoding loop of getHistoryDDLJobs over all collected rows, in row
order; the first failing row aborts the whole call, skipped rows are
dropped. -/
def getHistoryDDLJobs (lastDDLID : Int) : List (List String) → Except HistErr (List DdlJob)
  | [] => .ok []
  | row :: rest =>
    match parseRow lastDDLID row with
    | .error e => .error e
    | .ok j? =>
      match getHistoryDDLJobs lastDDLID rest with
      | .error e => .error e
      | .ok js =>
        match j? with
        | some j => .ok (j :: js)
        | none => .ok js

/-- A result row of `admin show ddl jobs` with exactly nine columns: one
short of the ten the spec requires, yet enough to pass the source's
`len(row) < 9` guard. -/
def nineColumnRow : List String :=
  ["100", "test", "t1", "drop table", "none", "1", "44", "0",
   "2018-07-13 13:13:55.57 +0800 CST"]

/- ### getSortTask (ddl_ops.go lines 1490-1575)

The Go matching loop mutates tasks through pointers and appends the same
pointers to `sortTasks`.  The embedding keeps the task list as explicit
state and appends task *indices*, so a later mutation of a task is seen
by every earlier occurrence of it in the match list, exactly as for the
shared Go pointers.  (Within one batch no two tasks alias a freshly
created table/schema/view, so per-task value semantics is faithful for
the stamping writes.) -/

/-- Go nil-pointer dereferences of the matching loop (conditions 1-3
dereference the corresponding info pointer of the task). -/
inductive MatchFault where
  | nilTblInfo
  | nilSchemaInfo
  | nilViewInfo
deriving DecidableEq, Repr

/-- State of the matching loop: the (mutated) batch and the indices
appended to `sortTasks` so far, in append order. -/
structure MatchState where
  tasks : List DdlJobTask
  matched : List Nat
deriving DecidableEq, Repr

/-- Append index `i` to the match list with `t` the mutated task. -/
def markMatch (st : MatchState) (i : Nat) (t : DdlJobTask) : MatchState :=
  { tasks := st.tasks.set i t, matched := st.matched ++ [i] }

/-- Innermost else-if ladder of the fourth match condition
(ddl_ops.go lines 1524-1527): a schema-id match sets `ddlID` and appends,
but does NOT break the task loop. -/
def stmt4schema (job : DdlJob) (st : MatchState) (i : Nat) (task : DdlJobTask) :
    MatchState × Bool :=
  match task.schemaInfo with
  | some sc =>
    if sc.id = job.schemaID then
      (markMatch st i { task with ddlID := job.id }, false)
    else (st, false)
  | none => (st, false)

/-- Second arm of the fourth match condition (ddl_ops.go lines 1521-1523):
a view-id match sets `ddlID` and appends, but does NOT break. -/
def stmt4view (job : DdlJob) (st : MatchState) (i : Nat) (task : DdlJobTask) :
    MatchState × Bool :=
  match task.viewInfo with
  | some v =>
    if v.id = job.tableID then
      (markMatch st i { task with ddlID := job.id }, false)
    else stmt4schema job st i task
  | none => stmt4schema job st i task

/-- Fourth match condition of the task loop (ddl_ops.go lines 1516-1528):
for a non-add-table task of the job's kind, try table id (break on
match), then view id, then schema id (no break).  Returns the new state
and whether the task loop breaks. -/
def stmt4 (job : DdlJob) (st : MatchState) (i : Nat) (task : DdlJobTask) :
    MatchState × Bool :=
  if task.k ≠ .addTable ∧ job.k = task.k then
    match task.tblInfo with
    | some tbl =>
      if tbl.id = job.tableID then
        (markMatch st i { task with ddlID := job.id }, true)
      else stmt4view job st i task
    | none => stmt4view job st i task
  else (st, false)

/-- The task loop of getSortTask for one history row (ddl_ops.go lines
1497-1529).  `fuel` bounds the iteration count (called with the batch
size); `i` is the current task index.  Match condition 1 stamps the new
table id and breaks; conditions 2 and 3 stamp schema/view ids and break;
a name mismatch inside conditions 1-3 falls through to the remaining
conditions exactly as the Go `if` statements do. -/
def innerLoop (job : DdlJob) : Nat → Nat → MatchState → Except MatchFault MatchState
  | 0, _, st => .ok st
  | fuel + 1, i, st =>
    match st.tasks[i]? with
    | none => .ok st
    | some task =>
      if task.k = .addTable ∧ job.k = .addTable then
        match task.tblInfo with
        | none => .error .nilTblInfo
        | some tbl =>
          if tbl.name = job.tableName then
            .ok (markMatch st i
              { task with ddlID := job.id, tblInfo := some { tbl with id := job.tableID } })
          else
            -- conditions 2-4 need task.k ≠ add-table resp. a schema/view
            -- kind, so they cannot fire for this task: next task.
            innerLoop job fuel (i + 1) st
      else if task.k = .createSchema ∧ job.k = .createSchema then
        match task.schemaInfo with
        | none => .error .nilSchemaInfo
        | some sc =>
          if sc.name = job.schemaName then
            .ok (markMatch st i
              { task with ddlID := job.id, schemaInfo := some { sc with id := job.schemaID } })
          else
            -- condition 4 still applies (job.k = task.k = create schema).
            if (stmt4 job st i task).2 then .ok (stmt4 job st i task).1
            else innerLoop job fuel (i + 1) (stmt4 job st i task).1
      else if task.k = .createView ∧ job.k = .createView then
        match task.viewInfo with
        | none => .error .nilViewInfo
        | some v =>
          if v.name = job.tableName then
            .ok (markMatch st i
              { task with ddlID := job.id, viewInfo := some { v with id := job.tableID } })
          else
            if (stmt4 job st i task).2 then .ok (stmt4 job st i task).1
            else innerLoop job fuel (i + 1) (stmt4 job st i task).1
      else
        if (stmt4 job st i task).2 then .ok (stmt4 job st i task).1
        else innerLoop job fuel (i + 1) (stmt4 job st i task).1

/-- The history-row loop of getSortTask (ddl_ops.go lines 1496-1533): run
the task loop for each job in history order and stop early once the
match list is as long as the batch. -/
def outerLoop : List DdlJob → MatchState → Except MatchFault MatchState
  | [], st => .ok st
  | job :: rest, st =>
    match innerLoop job st.tasks.length 0 st with
    | .error p => .error p
    | .ok st' =>
      if st'.matched.length = st'.tasks.length then .ok st'
      else outerLoop rest st'

/-- The `sortTasks` slice as a list of (finally mutated) task values: each
appended index read back from the final batch state. -/
def sortTasksOf (st : MatchState) : List DdlJobTask :=
  st.matched.map (fun i => (st.tasks[i]?).getD dummyTask)

/-- Errors of getSortTask: a history-decoding error, a Go nil dereference
in the matching loop, or the linearization failure built at
ddl_ops.go lines 1535-1567 (whose diagnostic lists the history jobs, the
mutated batch, and the partial sort). -/
inductive SortErr where
  | hist (e : HistErr)
  | fault (p : MatchFault)
  | linearization (jobs : List DdlJob) (tasks : List DdlJobTask)
      (sortTasks : List DdlJobTask)
deriving DecidableEq, Repr

/-- Successful getSortTask outcome: the ddl-id-sorted tasks and the new
value of the dispatcher's `lastDDLID`. -/
structure SortResult where
  sorted : List DdlJobTask
  newLastDDLID : Int
deriving DecidableEq, Repr

/-- The comparison used by `sort.Sort(ddlJobTasks(sortTasks))`
(ddl_ops.go lines 1577-1589): ascending ddl job id. -/
def taskLE (a b : DdlJobTask) : Prop := a.ddlID ≤ b.ddlID

instance : DecidableRel taskLE := fun a b => Int.decLe a.ddlID b.ddlID

instance : IsTotal DdlJobTask taskLE := ⟨fun a b => Int.le_total a.ddlID b.ddlID⟩

instance : IsTrans DdlJobTask taskLE := ⟨fun _ _ _ => Int.le_trans⟩

/-- getSortTask (ddl_ops.go lines 1490-1575): decode history, run the
matching loops, fail with the linearization diagnostic when the match
list length differs from the batch size, otherwise sort by ddl id and
advance `lastDDLID` to the id of the last (greatest) sorted task.
`sort.Sort` is modelled by insertion sort on the same comparison; both
produce a list sorted by `taskLE`, and ties arise only between
occurrences of one shared task, which carry equal values here. -/
def getSortTask (lastDDLID : Int) (rows : List (List String))
    (tasks : List DdlJobTask) : Except SortErr SortResult :=
  match getHistoryDDLJobs lastDDLID rows with
  | .error e => .error (.hist e)
  | .ok jobs =>
    match outerLoop jobs { tasks := tasks, matched := [] } with
    | .error p => .error (.fault p)
    | .ok st =>
      let sortTasks := sortTasksOf st
      if sortTasks.length ≠ tasks.length then
        .error (.linearization jobs st.tasks sortTasks)
      else
        let sorted := List.insertionSort taskLE sortTasks
        .ok { sorted := sorted,
              newLastDDLID :=
                match sorted.getLast? with
                | some t => t.ddlID
                | none => lastDDLID }

/- ### C2: duplicate (kind, target) in one batch -/

/-- A drop-table task against table `t1` with server id `"44"`. -/
def dupDropTask : DdlJobTask :=
  { ddlID := 0, k := .dropTable, tblInfo := some { name := "t1", id := "44" },
    schemaInfo := none, viewInfo := none, sql := "DROP TABLE `t1`", err := none }

/-- A batch of two tasks of identical kind against the same target id. -/
def dupBatch : List DdlJobTask := [dupDropTask, dupDropTask]

/-- History rows for the duplicate batch: two drop-table jobs on table id
`"44"` (the shape shown in the source comment at ddl_ops.go lines
1397-1404), newest first as `admin show ddl jobs` returns them. -/
def dupRows : List (List String) :=
  [["47", "test", "t1", "drop table", "none", "1", "44", "0",
    "2018-07-13 13:13:55.57 +0800 CST", "synced"],
   ["46", "test", "t1", "drop table", "none", "1", "44", "0",
    "2018-07-13 13:13:52.523 +0800 CST", "synced"]]

/- ### C7: order of a generation pass -/

/-- The order in which generateDDLOps (ddl_ops.go lines 19-75) registers
the per-kind executors: each generateX call appends exactly one
`ddlTestOpExecutor` for its kind to `c.ddlOps` and returns nil, so one
generation pass visits the kinds in exactly this source order. -/
def generateDDLOpsOrder : List DDLKind :=
  [.createSchema, .dropSchema, .addTable, .renameTable, .truncateTable,
   .modifyTableComment, .modifyTableCharsetAndCollate, .shardRowID,
   .rebaseAutoID, .dropTable, .createView, .addIndex, .renameIndex,
   .dropIndex, .addColumn, .modifyColumn, .dropColumn, .setDefaultValue]

/-- The order in which the specification's weight table (spec section
4.2) lists the DDL kinds; per the claim, a generation pass should visit
kinds in this order. -/
def specWeightTableOrder : List DDLKind :=
  [.addTable, .dropTable, .addIndex, .dropIndex, .addColumn,
   .modifyColumn, .dropColumn, .createView, .createSchema, .dropSchema,
   .renameTable, .renameIndex, .truncateTable, .shardRowID,
   .rebaseAutoID, .setDefaultValue, .modifyTableComment,
   .modifyTableCharsetAndCollate]

/- ### execParaDDLSQL replay loop (ddl_ops.go lines 282-298)

The loop applies each sorted task via `c.updateTableInfo` and compares
the local applier error with the recorded server error.  The applier is
a parameter (a state transformer returning the new shadow-catalog state
and an optional error); the per-kind appliers verified below are
instances of it. -/

/-- Modelled from the spec: `ddlIgnoreError` (outside the provided
source) classifies well-known benign errors — spec section 7 names
"table already gone" and connection retry as examples; positives never
fail the run.  A nil error is trivially ignorable (the call sites only
reach it with a non-nil error). -/
def benignDdlErrors : List String := ["table already gone", "connection retry"]

/-- The benign-error classifier applied to an optional error. -/
def ddlIgnoreError : Option String → Bool
  | none => true
  | some e => benignDdlErrors.contains e

/-- Modelled from the spec: `debugPrintToString` (outside the provided
source) renders the affected table's debug dump (spec sections 4.4 step 9
and 7).  It reads the table's fields, so it is defined only for a present
(non-nil) table; the dispatcher calling it through a nil pointer is a Go
runtime fault. -/
def debugPrintToString (t : TblRef) : String :=
  "table " ++ t.name ++ " id " ++ t.id

/-- Outcome of the replay loop: normal return, the divergence error of
ddl_ops.go line 295 carrying exactly the components formatted into its
message (SQL, local error, remote error, table debug dump), or the Go
nil-pointer fault of evaluating `task.tblInfo.debugPrintToString()` for
a task without a table. -/
inductive ParaOutcome where
  | ok
  | divergence (sql : String) (localErr remoteErr : Option String) (dump : String)
  | nilTableFault (sql : String)
deriving DecidableEq, Repr

/-- The replay loop of execParaDDLSQL (ddl_ops.go lines 282-298): apply
each task in sorted order; when exactly one of the local and recorded
server errors is nil, return nil if the local error is ignorable, else
abort with the divergence error; otherwise continue, and return nil
after the last task. -/
def execParaReplay {σ : Type} (applier : σ → DdlJobTask → σ × Option String) :
    σ → List DdlJobTask → ParaOutcome
  | _, [] => .ok
  | s, task :: rest =>
    let r := applier s task
    if (r.2 = none ∧ task.err ≠ none) ∨ (r.2 ≠ none ∧ task.err = none) then
      if r.2 ≠ none ∧ ddlIgnoreError r.2 = true then .ok
      else
        match task.tblInfo with
        | some tbl => .divergence task.sql r.2 task.err (debugPrintToString tbl)
        | none => .nilTableFault task.sql
    else execParaReplay applier r.1 rest

/-- An applier that always succeeds and keeps the state: stands for any
task whose local application returns a nil error. -/
def noOpApplier : Unit → DdlJobTask → Unit × Option String :=
  fun u _ => (u, none)

/-- A task whose server execution failed (recorded error) against a live
table reference. -/
def divergingDropTask : DdlJobTask :=
  { ddlID := 0, k := .dropTable, tblInfo := some { name := "t1", id := "44" },
    schemaInfo := none, viewInfo := none, sql := "DROP TABLE `t1`",
    err := some "remote execution failed" }

/-- An applier whose local application fails with a benign (ignorable)
error while the state is kept. -/
def benignFailApplier : Unit → DdlJobTask → Unit × Option String :=
  fun u _ => (u, some "table already gone")

/-- A task the server executed fine (no recorded error). -/
def okServerDropTask : DdlJobTask :=
  { ddlID := 0, k := .dropTable, tblInfo := some { name := "t2", id := "45" },
    schemaInfo := none, viewInfo := none, sql := "DROP TABLE `t2`", err := none }

/-- createSchemaJob (ddl_ops.go lines 358-361): register the schema in
the name-keyed map and return nil — this applier never fails.  The
`none` branch is unreachable for tasks built by prepareCreateSchema,
which always attaches a schemaInfo. -/
def createSchemaApply (schemas : List (String × SchemaRef)) (task : DdlJobTask) :
    List (String × SchemaRef) × Option String :=
  match task.schemaInfo with
  | some sc => ((sc.name, sc) :: schemas, none)
  | none => (schemas, none)

/-- A create-schema task (tblInfo is nil, schemaInfo present, as built by
prepareCreateSchema at ddl_ops.go lines 339-356) whose server execution
failed with a non-ignorable error. -/
def divergingSchemaTask : DdlJobTask :=
  { ddlID := 0, k := .createSchema, tblInfo := none,
    schemaInfo := some { name := "6e1c0a34-9b31-4236-8b62-700c44f13402", id := "" },
    viewInfo := none,
    sql := "CREATE SCHEMA `6e1c0a34-9b31-4236-8b62-700c44f13402` CHARACTER SET 'utf8' COLLATE 'utf8_bin'",
    err := some "server rejected the statement" }

/- ### Shadow catalog: columns, indexes, tables

The struct definitions of `ddlTestColumn`, `ddlTestIndex` and
`ddlTestTable` live outside the provided source file; they are
reconstructed from the spec's data model (section 3).  Generated-column
edges and index membership are stored by (unique) column name, following
the arena recommendation of spec section 9 for the source's two-way
pointers. -/

/-- Modelled from the spec (section 3, Column): the column fields read by
the verified operations.  The row data and the kind/value library are
external collaborators and are not needed by any claim below. -/
structure DdlTestColumn where
  name : String
  isPrimaryKey : Bool
  indexReferences : Int
  deleted : Bool
  renamed : Bool
  dependenciedColNames : List String
  dependencyName : Option String
deriving DecidableEq, Repr

/-- Modelled from the spec (invariant 6 and section 3): a column "has a
generated-column dependency" when its dependent set is non-empty. -/
def DdlTestColumn.hasGenerateCol (c : DdlTestColumn) : Bool :=
  c.dependenciedColNames.length > 0

/-- Modelled from the spec (section 3, Index): name, canonical signature,
and the ordered member columns (by unique column name). -/
structure DdlTestIndex where
  name : String
  signature : String
  columnNames : List String
deriving DecidableEq, Repr

/-- Modelled from the spec (section 3, Table): the table fields read by
the verified operations; the per-table lock is concurrency plumbing
outside the shallow embedding. -/
structure DdlTestTable where
  name : String
  id : String
  columns : List DdlTestColumn
  indexes : List DdlTestIndex
  numberOfRows : Int
  comment : String
  charset : String
  collate : String
  shardRowId : Int
  autoIncID : Int
  deleted : Bool
deriving DecidableEq, Repr

/-- Modelled from the spec (section 4.1): `is_deleted` tombstone check of
a table. -/
def isTableDeleted (t : DdlTestTable) : Bool := t.deleted

/-- Modelled from the spec (section 4.1): tombstone check of a column. -/
def isColumnDeleted (c : DdlTestColumn) : Bool := c.deleted

/-- `ddlTestAddDropColumnStrategy` (ddl_ops.go lines 1034-1042); the
begin/end markers of the Go iota block are not strategies. -/
inductive ColumnStrategy where
  | atBeginning
  | atEnd
  | atRandom
deriving DecidableEq, Repr

/-- `ddlColumnJobArg` (ddl_ops.go lines 1048-1054).  `origColumnIndex`
is a Go int always assigned from a slice index, hence `Nat`; the two
column pointers are nilable. -/
structure DdlColumnJobArg where
  origColumnIndex : Nat
  origColumn : Option DdlTestColumn
  column : DdlTestColumn
  strategy : ColumnStrategy
  insertAfterColumn : Option DdlTestColumn
deriving DecidableEq, Repr

/-- `ddlIndexJobArg` (ddl_ops.go lines 820-822). -/
structure DdlIndexJobArg where
  index : DdlTestIndex
deriving DecidableEq, Repr

/-- Errors of the appliers: the `fmt.Errorf` not-exists/invariant errors
of the source, plus Go nil dereferences. -/
inductive ApplyErr where
  | notExists (msg : String)
  | invariantViolation (msg : String)
  | nilPointer (what : String)
deriving DecidableEq, Repr

/- ### modifyColumnJob (ddl_ops.go lines 1203-1232) -/

/-- The insert position computed by the AtRandom arm of modifyColumnJob
(lines 1221-1228): the first index of the anchor column's name in the
post-removal sequence, defaulting to `origColumnIndex - 1` when the name
is absent (the loop's initial value). -/
def afterAnchorIdx (cols : List DdlTestColumn) (origColumnIndex : Nat)
    (anchorName : String) : Int :=
  match cols.findIdx? (fun col => decide (col.name = anchorName)) with
  | some i => (i : Int)
  | none => (origColumnIndex : Int) - 1

/-- The column sequence produced by the AtRandom arm of modifyColumnJob:
remove at the recorded index, then insert one past the recomputed anchor
position. -/
def atRandomResultColumns (cols : List DdlTestColumn) (origColumnIndex : Nat)
    (anchorName : String) (newCol : DdlTestColumn) : List DdlTestColumn :=
  (cols.eraseIdx origColumnIndex).insertIdx
    ((afterAnchorIdx (cols.eraseIdx origColumnIndex) origColumnIndex anchorName) + 1).toNat
    newCol

/-- modifyColumnJob: tombstone checks, then remove the original column at
its recorded index (`arraylist.Remove`, a no-op out of range), then
insert the new column at the strategy position (`arraylist.Insert`,
appending at the size and a no-op beyond it — the semantics of
`List.insertIdx`).  For the AFTER strategy the insert position is
recomputed by name against the post-removal sequence, falling back to
`origColumnIndex - 1` when the anchor column is not found. -/
def modifyColumnJob (table : DdlTestTable) (arg : DdlColumnJobArg) :
    Except ApplyErr DdlTestTable :=
  if isTableDeleted table then
    .error (.notExists ("table " ++ table.name ++ " is not exists"))
  else
    match arg.origColumn with
    | none => .error (.nilPointer "origColumn")
    | some oc =>
      if isColumnDeleted oc then
        .error (.notExists ("column " ++ oc.name ++ " on table " ++ table.name ++ " is not exists"))
      else
        let cols := table.columns.eraseIdx arg.origColumnIndex
        match arg.strategy with
        | .atBeginning => .ok { table with columns := arg.column :: cols }
        | .atEnd => .ok { table with columns := cols ++ [arg.column] }
        | .atRandom =>
          match arg.insertAfterColumn with
          | none => .error (.nilPointer "insertAfterColumn")
          | some ac =>
            let ip : Int := afterAnchorIdx cols arg.origColumnIndex ac.name
            .ok { table with columns := cols.insertIdx (ip + 1).toNat arg.column }

/- ### prepareDropColumn (ddl_ops.go lines 1239-1293) -/

/-- Modelled from the spec (section 4.1): filterColumns returns the
columns satisfying the predicate. -/
def filterColumns (cols : List DdlTestColumn) (p : DdlTestColumn → Bool) :
    List DdlTestColumn :=
  cols.filter p

/-- Modelled from the spec: predicateAll holds of every column, so the
snapshot taken by prepareDropColumn is the whole column sequence. -/
def predicateAll : DdlTestColumn → Bool := fun _ => true

/-- The column index prepareDropColumn selects for each strategy
(ddl_ops.go lines 1250-1259); the random draw `rand.Intn(size)` is
modelled as `r % size` (the guard before it makes `size ≥ 2`). -/
def dropColumnIndex (table : DdlTestTable) (strategy : ColumnStrategy) (r : Nat) : Nat :=
  match strategy with
  | .atBeginning => 0
  | .atEnd => table.columns.length - 1
  | .atRandom => r % table.columns.length

/-- The pieces of the `ddlJobTask` a column preparer emits (kind, SQL,
argument record); the task's `tblInfo` is the mutated table returned
alongside. -/
structure PreparedColumnTask where
  k : DDLKind
  sql : String
  arg : DdlColumnJobArg
deriving DecidableEq, Repr

/-- prepareDropColumn: snapshot the columns, refuse when at most one
remains, select a column by strategy, refuse primary keys, generated
parents and indexed columns; otherwise tombstone the column and emit the
task.  The Go arg leaves `origColumnIndex`/`origColumn` at their zero
values.  The `none` lookup branch is unreachable: the selected index is
below the column count whenever the snapshot has at least two entries. -/
def prepareDropColumn (table : DdlTestTable) (strategy : ColumnStrategy) (r : Nat) :
    Option PreparedColumnTask × DdlTestTable :=
  let snapshot := filterColumns table.columns predicateAll
  if snapshot.length ≤ 1 then (none, table)
  else
    let i := dropColumnIndex table strategy r
    match table.columns[i]? with
    | none => (none, table)
    | some columnToDrop =>
      if columnToDrop.isPrimaryKey then (none, table)
      else if columnToDrop.hasGenerateCol then (none, table)
      else if columnToDrop.indexReferences > 0 then (none, table)
      else
        let marked := { columnToDrop with deleted := true }
        (some { k := .dropColumn,
                sql := "ALTER TABLE `" ++ table.name ++ "` DROP COLUMN `" ++
                       columnToDrop.name ++ "`",
                arg := { origColumnIndex := 0, origColumn := none, column := marked,
                         strategy := strategy, insertAfterColumn := none } },
         { table with columns := table.columns.set i marked })

/- ### prepareDropTable (ddl_ops.go lines 737-754) -/

/-- Modelled from the spec (section 4.1): pick_random_table is uniform
over live (non-tombstoned) tables and yields nothing when none is live;
the random draw is the `r` parameter.  The catalog's name-keyed tables
map is a list here; the Go `len(c.tables)` is the list length. -/
def pickupRandomTable (tables : List DdlTestTable) (r : Nat) : Option DdlTestTable :=
  let live := tables.filter (fun t => !t.deleted)
  live[r % live.length]?

/-- The pieces of the task prepareDropTable emits. -/
structure DropTableTask where
  sql : String
  tableName : String
deriving DecidableEq, Repr

/-- prepareDropTable: pick a random live table; bail out when the tables
map (live AND tombstoned-pending entries alike) holds at most one entry
or nothing was picked; otherwise tombstone the picked table and emit the
drop task. -/
def prepareDropTable (tables : List DdlTestTable) (r : Nat) :
    Option DropTableTask × List DdlTestTable :=
  let tableToDrop := pickupRandomTable tables r
  if tables.length ≤ 1 ∨ tableToDrop = none then (none, tables)
  else
    match tableToDrop with
    | some t =>
      (some { sql := "DROP TABLE `" ++ t.name ++ "`", tableName := t.name },
       tables.map (fun u => if u.name = t.name then { u with deleted := true } else u))
    | none => (none, tables)

/- ### dropIndexJob (ddl_ops.go lines 1005-1032) -/

/-- The decrement loop of dropIndexJob (lines 1024-1029): decrement each
member column's reference count in member order and fail as soon as a
counter has gone negative.  The member pointers of the Go index are the
table's column objects, addressed here by unique name; the mutated
column list is returned even on the error path, as the Go mutations
persist. -/
def dropIndexDecLoop : List DdlTestColumn → List String → Option ApplyErr × List DdlTestColumn
  | cols, [] => (none, cols)
  | cols, n :: rest =>
    let cols1 := cols.map (fun c =>
      if c.name = n then { c with indexReferences := c.indexReferences - 1 } else c)
    match cols1.find? (fun c => decide (c.name = n)) with
    | some c =>
      if c.indexReferences < 0 then
        (some (.invariantViolation
          ("drop index, index.column " ++ n ++ " Unexpected index reference")), cols1)
      else dropIndexDecLoop cols1 rest
    | none => dropIndexDecLoop cols1 rest

/-- dropIndexJob: tombstone check, locate the index by name (first
match), fail `not exists` when absent; then run the decrement loop — an
underflow aborts with the invariant-violation error and leaves the index
list untouched (the counters already decremented stay decremented, as in
the source) — and finally remove the index at the found position. -/
def dropIndexJob (table : DdlTestTable) (arg : DdlIndexJobArg) :
    Option ApplyErr × DdlTestTable :=
  if isTableDeleted table then
    (some (.notExists ("table " ++ table.name ++ " is not exists")), table)
  else
    match table.indexes.findIdx? (fun idx => decide (arg.index.name = idx.name)) with
    | none =>
      (some (.notExists ("table " ++ table.name ++ " , index " ++ arg.index.name ++
        " is not exists")), table)
    | some i =>
      match dropIndexDecLoop table.columns arg.index.columnNames with
      | (some e, cols1) => (some e, { table with columns := cols1 })
      | (none, cols1) =>
        (none, { table with columns := cols1, indexes := table.indexes.eraseIdx i })

/- ### Concrete catalog fixtures for witnesses and counterexamples -/

/-- A primary-key column with no index references and no dependents. -/
def pkColumn : DdlTestColumn :=
  { name := "a", isPrimaryKey := true, indexReferences := 0, deleted := false,
    renamed := false, dependenciedColNames := [], dependencyName := none }

/-- A plain live column named `b` carrying one index reference. -/
def colB : DdlTestColumn :=
  { name := "b", isPrimaryKey := false, indexReferences := 1, deleted := false,
    renamed := false, dependenciedColNames := [], dependencyName := none }

/-- A plain live column named `c` with no index references. -/
def colC : DdlTestColumn :=
  { name := "c", isPrimaryKey := false, indexReferences := 0, deleted := false,
    renamed := false, dependenciedColNames := [], dependencyName := none }

/-- A plain live column named `d` with no index references. -/
def colD : DdlTestColumn :=
  { name := "d", isPrimaryKey := false, indexReferences := 0, deleted := false,
    renamed := false, dependenciedColNames := [], dependencyName := none }

/-- A two-column table whose first column is the primary key. -/
def pkTable : DdlTestTable :=
  { name := "t", id := "1", columns := [pkColumn, colB], indexes := [],
    numberOfRows := 0, comment := "", charset := "utf8", collate := "utf8_bin",
    shardRowId := 0, autoIncID := 0, deleted := false }

/-- A tombstoned table still present in the tables map. -/
def tombstonedT1 : DdlTestTable :=
  { name := "t1", id := "41", columns := [colC], indexes := [],
    numberOfRows := 0, comment := "", charset := "utf8", collate := "utf8_bin",
    shardRowId := 0, autoIncID := 0, deleted := true }

/-- A live table. -/
def liveT2 : DdlTestTable :=
  { name := "t2", id := "42", columns := [colD], indexes := [],
    numberOfRows := 0, comment := "", charset := "utf8", collate := "utf8_bin",
    shardRowId := 0, autoIncID := 0, deleted := false }

/-- A tables map holding one tombstoned-pending entry and one live
entry: exactly one live table, but two map entries. -/
def mixedCatalog : List DdlTestTable := [tombstonedT1, liveT2]

/-- An index over member column `b`. -/
def ixOnB : DdlTestIndex := { name := "ix", signature := "b,", columnNames := ["b"] }

/-- A single-row history for a successful one-task getSortTask call. -/
def singleRowHistory : List (List String) :=
  [["47", "test", "t1", "drop table", "none", "1", "44", "0",
    "2018-07-13 13:13:55.57 +0800 CST", "synced"]]

/-- The result of getSortTask on the single-row history and the one-task
batch `[dupDropTask]`. -/
def singleSortResult : SortResult :=
  { sorted := [{ dupDropTask with ddlID := 47 }], newLastDDLID := 47 }

/-- A live table with columns `[b, a, c]` for the modify-column move. -/
def moveTable : DdlTestTable :=
  { name := "t", id := "7", columns := [colB, pkColumn, colC], indexes := [],
    numberOfRows := 0, comment := "", charset := "utf8", collate := "utf8_bin",
    shardRowId := 0, autoIncID := 0, deleted := false }

/-- A modify-column argument: change `a` (index 1) to the new definition
`d`, positional strategy AFTER `c`. -/
def moveArg : DdlColumnJobArg :=
  { origColumnIndex := 1, origColumn := some pkColumn, column := colD,
    strategy := .atRandom, insertAfterColumn := some colC }

/-- A live table with columns `b`, `c` and the single index `ix(b)`. -/
def ixTable : DdlTestTable :=
  { name := "t3", id := "43", columns := [colB, colC], indexes := [ixOnB],
    numberOfRows := 0, comment := "", charset := "utf8", collate := "utf8_bin",
    shardRowId := 0, autoIncID := 0, deleted := false }

end Schrddl

namespace Schrddl

/-! ## Theorems -/

/-- C9: the claim states that every row of `admin show ddl jobs` with
fewer than the ten required columns is rejected with a 'no enough
column' error and that only rows with at least ten columns have their
fields read.  The source guard is `len(row) < 9`, so a nine-column row
with a fresh job id and a known job type passes the guard, and the read
of STATE at index 9 is out of range — a Go runtime panic, not the
claimed rejection. -/
theorem getHistoryDDLJobs_nine_column_row_panics :
    getHistoryDDLJobs 0 [nineColumnRow] =
      .error (.indexOutOfRange 9 nineColumnRow) := by
  rfl

/-- C2 counterexample: the claim states that a batch containing two tasks
of identical kind against the same target id makes getSortTask return a
linearization-failure error.  On this concrete batch both history rows
match the FIRST task (the match loop rechecks already-matched tasks), the
match list reaches the batch length, and getSortTask succeeds silently:
the first task is listed twice in the sort and the second never. -/
theorem getSortTask_duplicate_kind_target_succeeds :
    getSortTask 0 dupRows dupBatch =
      .ok { sorted := [{ dupDropTask with ddlID := 46 }, { dupDropTask with ddlID := 46 }],
            newLastDDLID := 46 } ∧
    dupBatch = [dupDropTask, dupDropTask] ∧
    dupDropTask.k = .dropTable ∧ dupDropTask.tblInfo = some { name := "t1", id := "44" } := by
  refine ⟨by rfl, rfl, rfl, rfl⟩

/-- C2 amended: given the decoded history and the final state of the
matching loop, getSortTask returns the linearization-failure error — and
then it carries exactly the history jobs, the mutated batch, and the
partial sort — precisely when the match-list length differs from the
number of tasks. -/
theorem getSortTask_linearization_iff (lastDDLID : Int) (rows : List (List String))
    (tasks : List DdlJobTask) (jobs : List DdlJob) (st : MatchState)
    (hjobs : getHistoryDDLJobs lastDDLID rows = .ok jobs)
    (hmatch : outerLoop jobs { tasks := tasks, matched := [] } = .ok st) :
    getSortTask lastDDLID rows tasks =
        .error (.linearization jobs st.tasks (sortTasksOf st)) ↔
      (sortTasksOf st).length ≠ tasks.length := by
  unfold getSortTask
  simp only [hjobs, hmatch]
  by_cases hlen : (sortTasksOf st).length ≠ tasks.length
  · rw [if_pos hlen]
    simp [hlen]
  · rw [if_neg hlen]
    simp [hlen]

/-- Witness for the C2 amended theorem: an empty history against a
one-task batch leaves the match list short, and getSortTask raises the
linearization failure carrying the three listings. -/
theorem getSortTask_linearization_iff_witness :
    getSortTask 0 [] [dupDropTask] =
      .error (.linearization [] [dupDropTask] []) := by
  exact (getSortTask_linearization_iff 0 [] [dupDropTask] []
    { tasks := [dupDropTask], matched := [] } rfl rfl).mpr (by decide)

/-- C7 counterexample: the registration order of generateDDLOps is not
the weight-table listing order of the spec; they differ already at the
first kind (create schema vs create table). -/
theorem generateDDLOpsOrder_ne_specOrder :
    generateDDLOpsOrder ≠ specWeightTableOrder ∧
    generateDDLOpsOrder.head? = some .createSchema ∧
    specWeightTableOrder.head? = some .addTable := by
  decide

/-- C7 amended: a generation pass calls the preparer of every DDL kind
exactly once, in the fixed source order of generateDDLOps (create schema,
drop schema, create table, rename table, truncate table, modify table
comment, modify table charset and collate, shard row ID, rebase
auto_increment ID, drop table, create view, add index, rename index,
drop index, add column, modify column, drop column, set default value) —
a permutation of the spec's weight-table listing, not that listing
itself. -/
theorem generateDDLOpsOrder_each_kind_once :
    generateDDLOpsOrder.Nodup ∧
    (∀ k : DDLKind, k ∈ generateDDLOpsOrder) ∧
    generateDDLOpsOrder.Perm specWeightTableOrder := by
  decide

/-- C1 amended: after each applier runs, the replay loop compares the
local error with the recorded server error: agreement (both nil or both
non-nil) continues the batch with no failure; exactly one nil with a
non-nil ignorable LOCAL error stops the batch reporting no failure;
otherwise exactly one nil aborts with a divergence error carrying the
task's SQL, both error values, and the affected table's debug dump. -/
theorem execParaReplay_outcome_comparison {σ : Type}
    (applier : σ → DdlJobTask → σ × Option String) (s s' : σ) (le : Option String)
    (task : DdlJobTask) (rest : List DdlJobTask)
    (h : applier s task = (s', le)) :
    (((le = none ∧ task.err = none) ∨ (le ≠ none ∧ task.err ≠ none)) →
        execParaReplay applier s (task :: rest) = execParaReplay applier s' rest) ∧
    ((le ≠ none ∧ task.err = none ∧ ddlIgnoreError le = true) →
        execParaReplay applier s (task :: rest) = .ok) ∧
    (∀ tbl, task.tblInfo = some tbl →
      ((le = none ∧ task.err ≠ none) ∨ (le ≠ none ∧ task.err = none)) →
      ¬(le ≠ none ∧ ddlIgnoreError le = true) →
        execParaReplay applier s (task :: rest) =
          .divergence task.sql le task.err (debugPrintToString tbl)) := by
  have hred : execParaReplay applier s (task :: rest) =
      if (le = none ∧ task.err ≠ none) ∨ (le ≠ none ∧ task.err = none) then
        if le ≠ none ∧ ddlIgnoreError le = true then .ok
        else
          match task.tblInfo with
          | some tbl => .divergence task.sql le task.err (debugPrintToString tbl)
          | none => .nilTableFault task.sql
      else execParaReplay applier s' rest := by
    simp only [execParaReplay, h]
  refine ⟨?_, ?_, ?_⟩
  · intro hagree
    rw [hred, if_neg]
    rcases hagree with ⟨h1, h2⟩ | ⟨h1, h2⟩ <;> tauto
  · intro ⟨h1, h2, h3⟩
    rw [hred, if_pos (Or.inr ⟨h1, h2⟩), if_pos ⟨h1, h3⟩]
  · intro tbl htbl hdiv hnoign
    rw [hred, if_pos hdiv, if_neg hnoign, htbl]

/-- Witness for the C1 theorem at a concrete diverging task: the local
applier succeeds, the server recorded an error, so the replay aborts
with the divergence error built from the task's components. -/
theorem execParaReplay_outcome_comparison_witness :
    execParaReplay noOpApplier () [divergingDropTask] =
      .divergence "DROP TABLE `t1`" none (some "remote execution failed")
        (debugPrintToString { name := "t1", id := "44" }) := by
  exact (execParaReplay_outcome_comparison noOpApplier () () none divergingDropTask [] rfl).2.2
    { name := "t1", id := "44" } rfl
    (Or.inl ⟨rfl, fun hc => Option.noConfusion hc⟩)
    (fun hc => hc.1 rfl)

/-- C1 counterexample: the claim states that whenever exactly one of the
local and server errors is nil the dispatcher aborts with a divergence
error.  Here the local applier fails with an error the classifier deems
ignorable while the server succeeded — exactly one nil — yet the replay
returns with no failure at all. -/
theorem execParaReplay_ignored_local_error_no_abort :
    (benignFailApplier () okServerDropTask).2 = some "table already gone" ∧
    okServerDropTask.err = none ∧
    ddlIgnoreError (some "table already gone") = true ∧
    execParaReplay benignFailApplier () [okServerDropTask] = .ok := by
  refine ⟨rfl, rfl, rfl, rfl⟩

/-- The snapshot prepareDropColumn takes with `predicateAll` is the
whole column sequence. -/
theorem filter_predicateAll (cols : List DdlTestColumn) :
    List.filter predicateAll cols = cols := by
  induction cols with
  | nil => rfl
  | cons a l ih => simp [List.filter, predicateAll, ih]

/-- C4: prepareDropColumn never emits a task — and never tombstones a
column — when the selected column is a primary-key column, has
generated-column dependents, carries a positive index reference count,
or is the last remaining column of the table; in every such case the
call returns no task and the table unchanged. -/
theorem prepareDropColumn_protections (table : DdlTestTable)
    (strategy : ColumnStrategy) (r : Nat) (col : DdlTestColumn)
    (hsel : table.columns[dropColumnIndex table strategy r]? = some col)
    (hbad : table.columns.length ≤ 1 ∨ col.isPrimaryKey = true ∨
            col.hasGenerateCol = true ∨ 0 < col.indexReferences) :
    prepareDropColumn table strategy r = (none, table) := by
  unfold prepareDropColumn
  simp only [filterColumns, filter_predicateAll]
  rcases le_or_lt table.columns.length 1 with hle | hgt
  · rw [if_pos hle]
  · rw [if_neg (by omega)]
    rw [hsel]
    by_cases h1 : col.isPrimaryKey = true
    · simp [h1]
    · by_cases h2 : col.hasGenerateCol = true
      · simp [h1, h2]
      · by_cases h3 : 0 < col.indexReferences
        · simp [h1, h2, h3]
        · rcases hbad with h | h | h | h
          · omega
          · exact absurd h h1
          · exact absurd h h2
          · exact absurd h h3

/-- Witness for C4: dropping the first column of `pkTable` (a primary
key) emits no task and leaves the table untouched. -/
theorem prepareDropColumn_protections_witness :
    prepareDropColumn pkTable .atBeginning 0 = (none, pkTable) := by
  exact prepareDropColumn_protections pkTable .atBeginning 0 pkColumn rfl
    (Or.inr (Or.inl rfl))

/-- C8 counterexample: the claim states that prepareDropTable emits a
task only when more than one LIVE table exists.  In a catalog whose
tables map holds one tombstoned-pending entry and one live entry —
exactly one live table — the source guard `len(c.tables) <= 1` sees two
map entries and a task dropping the last live table is emitted. -/
theorem prepareDropTable_single_live_table_emits :
    (mixedCatalog.filter (fun t => !t.deleted)).length = 1 ∧
    (prepareDropTable mixedCatalog 0).1 =
      some { sql := "DROP TABLE `t2`", tableName := "t2" } := by
  refine ⟨rfl, by rfl⟩

/-- C8 amended: prepareDropTable emits a task exactly when the tables
map has more than one entry (live or tombstoned-pending) AND a live
table could be picked; whenever it emits no task it leaves the catalog
unchanged (in particular no table is tombstoned). -/
theorem prepareDropTable_guard (tables : List DdlTestTable) (r : Nat) :
    ((prepareDropTable tables r).1.isSome = true ↔
      1 < tables.length ∧ (pickupRandomTable tables r).isSome = true) ∧
    ((prepareDropTable tables r).1 = none → (prepareDropTable tables r).2 = tables) := by
  unfold prepareDropTable
  by_cases hc : tables.length ≤ 1 ∨ pickupRandomTable tables r = none
  · rw [if_pos hc]
    constructor
    · simp only [Option.isSome_none, Bool.false_eq_true, false_iff, not_and]
      intro h1 h2
      rcases hc with h | h
      · omega
      · rw [h] at h2
        exact absurd h2 (by simp)
    · intro _
      rfl
  · rw [if_neg hc]
    push_neg at hc
    obtain ⟨h1, h2⟩ := hc
    cases hp : pickupRandomTable tables r with
    | none => exact absurd hp h2
    | some t =>
      constructor
      · simp [h1]
      · intro h
        exact absurd h (by simp)

/-- Witness for the C8 amended theorem: a single-entry catalog yields no
task and an unchanged catalog. -/
theorem prepareDropTable_guard_witness :
    (prepareDropTable [tombstonedT1] 0).2 = [tombstonedT1] := by
  exact (prepareDropTable_guard [tombstonedT1] 0).2 (by rfl)

/-- In a column list with pairwise distinct names, `find?` by name
returns the (unique) member carrying that name. -/
theorem find_column_by_name (cols : List DdlTestColumn) (n : String)
    (c0 : DdlTestColumn) (hnodup : (cols.map (fun c => c.name)).Nodup)
    (hc0 : c0 ∈ cols) (hn : c0.name = n) :
    cols.find? (fun c => decide (c.name = n)) = some c0 := by
  induction cols with
  | nil => cases hc0
  | cons a l ih =>
    simp only [List.map_cons, List.nodup_cons] at hnodup
    obtain ⟨hna, hnl⟩ := hnodup
    rcases List.mem_cons.mp hc0 with rfl | hmem
    · exact List.find?_cons_of_pos _ (by simp [hn])
    · have hane : ¬ a.name = n := by
        intro h
        exact hna (by rw [h, ← hn]; exact List.mem_map_of_mem _ hmem)
      rw [List.find?_cons_of_neg _ (by simp [hane])]
      exact ih hnl hmem

/-- Decrementing the member named `n` does not change the name
sequence of the column list. -/
theorem map_name_decrement (cols : List DdlTestColumn) (n : String) :
    ((cols.map (fun c =>
        if c.name = n then { c with indexReferences := c.indexReferences - 1 }
        else c)).map (fun c => c.name)) = cols.map (fun c => c.name) := by
  induction cols with
  | nil => rfl
  | cons a l ih =>
    by_cases h : a.name = n <;> simp [h, ih]

/-- After decrementing the member named `n`, looking it up by name finds
the decremented copy of the unique original bearer of that name. -/
theorem dec_find_step (cols : List DdlTestColumn) (n : String) (c0 : DdlTestColumn)
    (hnodupC : (cols.map (fun c => c.name)).Nodup)
    (hc0mem : c0 ∈ cols) (hc0name : c0.name = n) :
    (cols.map (fun c =>
        if c.name = n then { c with indexReferences := c.indexReferences - 1 }
        else c)).find? (fun c => decide (c.name = n)) =
      some { c0 with indexReferences := c0.indexReferences - 1 } := by
  have hdecmem :
      ({ c0 with indexReferences := c0.indexReferences - 1 } : DdlTestColumn) ∈
        cols.map (fun c =>
          if c.name = n then { c with indexReferences := c.indexReferences - 1 }
          else c) := by
    have := List.mem_map_of_mem (fun c =>
      if c.name = n then { c with indexReferences := c.indexReferences - 1 }
      else c) hc0mem
    simpa [hc0name] using this
  apply find_column_by_name _ n _ (by rw [map_name_decrement]; exact hnodupC) hdecmem
  simpa using hc0name

/-- Decrementing the member named `n` keeps presence of the other
members. -/
theorem dec_preserves_presence (cols : List DdlTestColumn) (n : String)
    (rest : List String) (hnn : n ∉ rest)
    (hpres : ∀ n' ∈ n :: rest, ∃ c ∈ cols, c.name = n') :
    ∀ n' ∈ rest, ∃ c ∈ cols.map (fun c =>
      if c.name = n then { c with indexReferences := c.indexReferences - 1 }
      else c), c.name = n' := by
  intro n' hn'
  obtain ⟨c', hc'mem, hc'name⟩ := hpres n' (by simp [hn'])
  have hne : ¬ c'.name = n := by
    rw [hc'name]
    intro h
    exact hnn (h ▸ hn')
  refine ⟨(fun c => if c.name = n then { c with indexReferences := c.indexReferences - 1 }
    else c) c', List.mem_map_of_mem _ hc'mem, ?_⟩
  simp only [if_neg hne]
  exact hc'name

/-- The decrement loop of dropIndexJob succeeds when every member column
is present with a positive reference count, and then decrements exactly
the members, each by one. -/
theorem dropIndexDecLoop_all_pos (names : List String) :
    ∀ (cols : List DdlTestColumn),
    (cols.map (fun c => c.name)).Nodup → names.Nodup →
    (∀ n ∈ names, ∃ c ∈ cols, c.name = n) →
    (∀ n ∈ names, ∀ c ∈ cols, c.name = n → 0 < c.indexReferences) →
    dropIndexDecLoop cols names =
      (none, cols.map (fun c =>
        if c.name ∈ names then { c with indexReferences := c.indexReferences - 1 }
        else c)) := by
  induction names with
  | nil =>
    intro cols _ _ _ _
    simp [dropIndexDecLoop]
  | cons n rest ih =>
    intro cols hnodupC hnodupN hpres hpos
    obtain ⟨c0, hc0mem, hc0name⟩ := hpres n (by simp)
    have hc0pos : 0 < c0.indexReferences := hpos n (by simp) c0 hc0mem hc0name
    obtain ⟨hnn, hrestN⟩ := List.nodup_cons.mp hnodupN
    have hfind := dec_find_step cols n c0 hnodupC hc0mem hc0name
    have hstep : dropIndexDecLoop cols (n :: rest) =
        dropIndexDecLoop (cols.map (fun c =>
          if c.name = n then { c with indexReferences := c.indexReferences - 1 }
          else c)) rest := by
      simp only [dropIndexDecLoop, hfind]
      rw [if_neg (by simp; omega)]
    have hpres1 := dec_preserves_presence cols n rest hnn hpres
    have hpos1 : ∀ n' ∈ rest, ∀ c ∈ cols.map (fun c =>
        if c.name = n then { c with indexReferences := c.indexReferences - 1 }
        else c), c.name = n' → 0 < c.indexReferences := by
      intro n' hn' c hcmem hcname
      obtain ⟨c', hc'mem, hc'eq⟩ := List.mem_map.mp hcmem
      have hne : n' ≠ n := fun h => hnn (h ▸ hn')
      by_cases h : c'.name = n
      · rw [if_pos h] at hc'eq
        have hc : c.name = c'.name := by rw [← hc'eq]
        rw [hc, h] at hcname
        exact absurd hcname.symm hne
      · rw [if_neg h] at hc'eq
        rw [← hc'eq]
        rw [← hc'eq] at hcname
        exact hpos n' (by simp [hn']) c' hc'mem hcname
    have hres := ih (cols.map (fun c =>
        if c.name = n then { c with indexReferences := c.indexReferences - 1 }
        else c)) (by rw [map_name_decrement]; exact hnodupC) hrestN hpres1 hpos1
    rw [hstep, hres]
    have hpt : ∀ c : DdlTestColumn,
        ((fun c : DdlTestColumn =>
            if c.name ∈ rest then { c with indexReferences := c.indexReferences - 1 }
            else c) ∘ (fun c : DdlTestColumn =>
            if c.name = n then { c with indexReferences := c.indexReferences - 1 }
            else c)) c =
        (if c.name ∈ n :: rest then { c with indexReferences := c.indexReferences - 1 }
         else c) := by
      intro c
      by_cases h : c.name = n
      · simp [Function.comp, h, hnn]
      · by_cases h2 : c.name ∈ rest <;> simp [Function.comp, h, h2]
    rw [List.map_map]
    exact congrArg (Prod.mk none) (congrArg (fun f => List.map f cols) (funext hpt))

/-- The decrement loop of dropIndexJob reports an error whenever some
member column's reference count is not positive (so that its decrement
goes negative). -/
theorem dropIndexDecLoop_underflow (names : List String) :
    ∀ (cols : List DdlTestColumn),
    (cols.map (fun c => c.name)).Nodup → names.Nodup →
    (∀ n ∈ names, ∃ c ∈ cols, c.name = n) →
    (∃ n ∈ names, ∀ c ∈ cols, c.name = n → c.indexReferences ≤ 0) →
    (dropIndexDecLoop cols names).1.isSome = true := by
  induction names with
  | nil =>
    intro cols _ _ _ hneg
    obtain ⟨n, hn, _⟩ := hneg
    cases hn
  | cons n rest ih =>
    intro cols hnodupC hnodupN hpres hneg
    obtain ⟨c0, hc0mem, hc0name⟩ := hpres n (by simp)
    obtain ⟨hnn, hrestN⟩ := List.nodup_cons.mp hnodupN
    have hfind := dec_find_step cols n c0 hnodupC hc0mem hc0name
    by_cases hc0 : c0.indexReferences ≤ 0
    · have hstep : (dropIndexDecLoop cols (n :: rest)).1.isSome = true := by
        simp only [dropIndexDecLoop, hfind]
        rw [if_pos (by simp; omega)]
        rfl
      exact hstep
    · push_neg at hc0
      have hstep : dropIndexDecLoop cols (n :: rest) =
          dropIndexDecLoop (cols.map (fun c =>
            if c.name = n then { c with indexReferences := c.indexReferences - 1 }
            else c)) rest := by
        simp only [dropIndexDecLoop, hfind]
        rw [if_neg (by simp; omega)]
      rw [hstep]
      obtain ⟨n', hn'mem, hprop⟩ := hneg
      have hn'rest : n' ∈ rest := by
        rcases List.mem_cons.mp hn'mem with rfl | h
        · exact absurd (hprop c0 hc0mem hc0name) (by omega)
        · exact h
      refine ih _ (by rw [map_name_decrement]; exact hnodupC) hrestN
        (dec_preserves_presence cols n rest hnn hpres) ⟨n', hn'rest, ?_⟩
      intro c hcmem hcname
      obtain ⟨c', hc'mem, hc'eq⟩ := List.mem_map.mp hcmem
      have hne : n' ≠ n := fun h => hnn (h ▸ hn'rest)
      by_cases h : c'.name = n
      · rw [if_pos h] at hc'eq
        have hc : c.name = c'.name := by rw [← hc'eq]
        rw [hc, h] at hcname
        exact absurd hcname.symm hne
      · rw [if_neg h] at hc'eq
        rw [← hc'eq]
        rw [← hc'eq] at hcname
        exact hprop c' hc'mem hcname

/-- C6: dropIndexJob on a live table whose index list contains the named
index — with the table's column names pairwise distinct and the index's
member names distinct and all present: when some member's reference
count is not positive (its decrement would go negative), the applier
reports an error and the index list is untouched; otherwise it reports
no error, every member's count drops by exactly one, non-members are
unchanged, and the index is removed from the index list. -/
theorem dropIndexJob_refcounts (table : DdlTestTable) (arg : DdlIndexJobArg) (i : Nat)
    (hlive : isTableDeleted table = false)
    (hfound : table.indexes.findIdx? (fun idx => decide (arg.index.name = idx.name)) = some i)
    (hnodupC : (table.columns.map (fun c => c.name)).Nodup)
    (hnodupN : arg.index.columnNames.Nodup)
    (hpres : ∀ n ∈ arg.index.columnNames, ∃ c ∈ table.columns, c.name = n) :
    ((∃ n ∈ arg.index.columnNames, ∀ c ∈ table.columns, c.name = n →
        c.indexReferences ≤ 0) →
      (dropIndexJob table arg).1.isSome = true ∧
      (dropIndexJob table arg).2.indexes = table.indexes) ∧
    ((∀ n ∈ arg.index.columnNames, ∀ c ∈ table.columns, c.name = n →
        0 < c.indexReferences) →
      (dropIndexJob table arg).1 = none ∧
      (dropIndexJob table arg).2.indexes = table.indexes.eraseIdx i ∧
      (dropIndexJob table arg).2.columns = table.columns.map (fun c =>
        if c.name ∈ arg.index.columnNames then
          { c with indexReferences := c.indexReferences - 1 }
        else c)) := by
  constructor
  · intro hneg
    have hsome := dropIndexDecLoop_underflow arg.index.columnNames table.columns
      hnodupC hnodupN hpres hneg
    rcases hdec : dropIndexDecLoop table.columns arg.index.columnNames with ⟨e, cols1⟩
    cases e with
    | none =>
      rw [hdec] at hsome
      simp at hsome
    | some err =>
      have hjob : dropIndexJob table arg = (some err, { table with columns := cols1 }) := by
        simp [dropIndexJob, hlive, hfound, hdec]
      rw [hjob]
      exact ⟨rfl, rfl⟩
  · intro hpos
    have hdec := dropIndexDecLoop_all_pos arg.index.columnNames table.columns
      hnodupC hnodupN hpres hpos
    have hjob : dropIndexJob table arg =
        (none, { table with
                  columns := table.columns.map (fun c =>
                    if c.name ∈ arg.index.columnNames then
                      { c with indexReferences := c.indexReferences - 1 }
                    else c),
                  indexes := table.indexes.eraseIdx i }) := by
      simp [dropIndexJob, hlive, hfound, hdec]
    rw [hjob]
    exact ⟨rfl, rfl, rfl⟩

/-- Witness for C6 at a concrete table: dropping `ix(b)` from `ixTable`
succeeds, removes the index, and takes `b`'s reference count from one
to zero while `c` is untouched. -/
theorem dropIndexJob_refcounts_witness :
    (dropIndexJob ixTable { index := ixOnB }).1 = none ∧
    (dropIndexJob ixTable { index := ixOnB }).2.indexes = ixTable.indexes.eraseIdx 0 ∧
    (dropIndexJob ixTable { index := ixOnB }).2.columns = ixTable.columns.map (fun c =>
      if c.name ∈ (({ index := ixOnB } : DdlIndexJobArg)).index.columnNames then
        { c with indexReferences := c.indexReferences - 1 }
      else c) := by
  exact (dropIndexJob_refcounts ixTable { index := ixOnB } 0 rfl (by decide)
    (by decide) (by decide) (by decide)).2 (by decide)

/-- Erasing at the junction index removes exactly the junction element
(`arraylist.Remove` at a recorded index). -/
theorem eraseIdx_append_cons {α : Type} (A : List α) (c : α) (B : List α) :
    (A ++ c :: B).eraseIdx A.length = A ++ B := by
  induction A with
  | nil => rfl
  | cons a A ih => simp [List.eraseIdx_cons_succ, ih]

/-- `findIdx?` over a list whose prefix has no match and whose next
element matches returns the prefix length (shifted by the start
accumulator). -/
theorem findIdx?_append_match {α : Type} (p : α → Bool) (L : List α) (x : α)
    (M : List α) (hL : ∀ y ∈ L, p y = false) (hx : p x = true) :
    ∀ i, (L ++ x :: M).findIdx? p i = some (i + L.length) := by
  induction L with
  | nil =>
    intro i
    simp [List.findIdx?_cons, hx]
  | cons a L ih =>
    intro i
    have ha : p a = false := hL a (by simp)
    rw [List.cons_append, List.findIdx?_cons]
    rw [if_neg (by simp [ha])]
    rw [ih (fun y hy => hL y (by simp [hy])) (i + 1)]
    congr 1
    simp
    omega

/-- `findIdx?` over a list with no match returns none. -/
theorem findIdx?_no_match {α : Type} (p : α → Bool) (L : List α)
    (hL : ∀ y ∈ L, p y = false) : ∀ i, L.findIdx? p i = none := by
  induction L with
  | nil => intro i; rfl
  | cons a L ih =>
    intro i
    rw [List.findIdx?_cons, if_neg (by simp [hL a (by simp)])]
    exact ih (fun y hy => hL y (by simp [hy])) (i + 1)

/-- Inserting behind a prefix is inserting into the suffix
(`arraylist.Insert` index arithmetic). -/
theorem insertIdx_append {α : Type} (L : List α) (k : Nat) (a : α) :
    ∀ M, (L ++ M).insertIdx (L.length + k) a = L ++ M.insertIdx k a := by
  induction L with
  | nil => intro M; simp
  | cons x L ih =>
    intro M
    have hlen : (x :: L).length + k = (L.length + k) + 1 := by simp; omega
    rw [hlen, List.cons_append, List.insertIdx_succ_cons, ih M, List.cons_append]

/-- The AtRandom arm of modifyColumnJob on a live table and live original
column: erase at the recorded index, then insert after the anchor's
position in the post-removal sequence (or back at the original position
when the anchor is gone). -/
theorem modifyColumnJob_atRandom_eq (table : DdlTestTable) (arg : DdlColumnJobArg)
    (oc ac : DdlTestColumn)
    (hlive : isTableDeleted table = false)
    (horig : arg.origColumn = some oc)
    (hocLive : isColumnDeleted oc = false)
    (hstrat : arg.strategy = .atRandom)
    (hafter : arg.insertAfterColumn = some ac) :
    modifyColumnJob table arg =
      .ok { table with columns :=
              atRandomResultColumns table.columns arg.origColumnIndex ac.name arg.column } := by
  simp [modifyColumnJob, atRandomResultColumns, hlive, horig, hocLive, hstrat, hafter]

/-- C5: for a modify-column task applied by modifyColumnJob with the
positional strategy AFTER X (`atRandom` with anchor X), the resulting
column order is the pre-state with the modified column removed from its
recorded index and reinserted immediately after X — whether X sat after
or before it — and the order is positionally unchanged (new definition,
same slot) when X is the modified column itself; the removal happens
first and X's position is recomputed against the post-removal
sequence. -/
theorem modifyColumnJob_after_position (table : DdlTestTable) (arg : DdlColumnJobArg)
    (oc ac : DdlTestColumn)
    (hlive : isTableDeleted table = false)
    (horig : arg.origColumn = some oc)
    (hocLive : isColumnDeleted oc = false)
    (hstrat : arg.strategy = .atRandom)
    (hafter : arg.insertAfterColumn = some ac) :
    (∀ (A B1 B2 : List DdlTestColumn) (c : DdlTestColumn),
      table.columns = A ++ c :: (B1 ++ ac :: B2) →
      arg.origColumnIndex = A.length →
      (∀ y ∈ A ++ B1, ¬ y.name = ac.name) →
      modifyColumnJob table arg =
        .ok { table with columns := A ++ B1 ++ ac :: arg.column :: B2 }) ∧
    (∀ (A1 A2 B : List DdlTestColumn) (c : DdlTestColumn),
      table.columns = A1 ++ ac :: (A2 ++ c :: B) →
      arg.origColumnIndex = A1.length + 1 + A2.length →
      (∀ y ∈ A1, ¬ y.name = ac.name) →
      modifyColumnJob table arg =
        .ok { table with columns := A1 ++ ac :: arg.column :: (A2 ++ B) }) ∧
    (∀ (A B : List DdlTestColumn),
      table.columns = A ++ ac :: B →
      arg.origColumnIndex = A.length →
      (∀ y ∈ A ++ B, ¬ y.name = ac.name) →
      modifyColumnJob table arg =
        .ok { table with columns := A ++ arg.column :: B }) := by
  have hbase := modifyColumnJob_atRandom_eq table arg oc ac hlive horig hocLive hstrat hafter
  refine ⟨?_, ?_, ?_⟩
  · intro A B1 B2 c hcols hidx hno
    rw [hbase]
    have herase : table.columns.eraseIdx arg.origColumnIndex = (A ++ B1) ++ ac :: B2 := by
      rw [hcols, hidx, eraseIdx_append_cons]
      simp
    have hfind : ((A ++ B1) ++ ac :: B2).findIdx?
        (fun col => decide (col.name = ac.name)) = some (A ++ B1).length := by
      have := findIdx?_append_match (fun col => decide (col.name = ac.name))
        (A ++ B1) ac B2 (fun y hy => by simp [hno y hy]) (by simp) 0
      simpa using this
    have hip : afterAnchorIdx ((A ++ B1) ++ ac :: B2) arg.origColumnIndex ac.name =
        ((A ++ B1).length : Int) := by
      simp only [afterAnchorIdx, hfind]
    have htoNat : ((((A ++ B1).length : Int)) + 1).toNat = (A ++ B1).length + 1 := by
      omega
    have hins : ((A ++ B1) ++ ac :: B2).insertIdx ((A ++ B1).length + 1) arg.column =
        (A ++ B1) ++ ac :: arg.column :: B2 := by
      rw [insertIdx_append (A ++ B1) 1 arg.column (ac :: B2)]
      rw [List.insertIdx_succ_cons, List.insertIdx_zero]
    have hcols2 : atRandomResultColumns table.columns arg.origColumnIndex ac.name
        arg.column = A ++ B1 ++ ac :: arg.column :: B2 := by
      unfold atRandomResultColumns
      rw [herase, hip, htoNat, hins]
    rw [hcols2]
  · intro A1 A2 B c hcols hidx hno
    rw [hbase]
    have hlen : arg.origColumnIndex = (A1 ++ ac :: A2).length := by
      rw [hidx]
      simp
      omega
    have herase : table.columns.eraseIdx arg.origColumnIndex =
        A1 ++ ac :: (A2 ++ B) := by
      rw [hcols, hlen]
      have hassoc : A1 ++ ac :: (A2 ++ c :: B) = (A1 ++ ac :: A2) ++ c :: B := by simp
      rw [hassoc, eraseIdx_append_cons]
      simp
    have hfind : (A1 ++ ac :: (A2 ++ B)).findIdx?
        (fun col => decide (col.name = ac.name)) = some A1.length := by
      have := findIdx?_append_match (fun col => decide (col.name = ac.name))
        A1 ac (A2 ++ B) (fun y hy => by simp [hno y hy]) (by simp) 0
      simpa using this
    have hip : afterAnchorIdx (A1 ++ ac :: (A2 ++ B)) arg.origColumnIndex ac.name =
        ((A1.length : Int)) := by
      simp only [afterAnchorIdx, hfind]
    have htoNat : (((A1.length : Int)) + 1).toNat = A1.length + 1 := by
      omega
    have hins : (A1 ++ ac :: (A2 ++ B)).insertIdx (A1.length + 1) arg.column =
        A1 ++ ac :: arg.column :: (A2 ++ B) := by
      rw [insertIdx_append A1 1 arg.column (ac :: (A2 ++ B))]
      rw [List.insertIdx_succ_cons, List.insertIdx_zero]
    have hcols2 : atRandomResultColumns table.columns arg.origColumnIndex ac.name
        arg.column = A1 ++ ac :: arg.column :: (A2 ++ B) := by
      unfold atRandomResultColumns
      rw [herase, hip, htoNat, hins]
    rw [hcols2]
  · intro A B hcols hidx hno
    rw [hbase]
    have herase : table.columns.eraseIdx arg.origColumnIndex = A ++ B := by
      rw [hcols, hidx, eraseIdx_append_cons]
    have hfind : (A ++ B).findIdx? (fun col => decide (col.name = ac.name)) = none :=
      findIdx?_no_match _ _ (fun y hy => by simp [hno y hy]) 0
    have hip : afterAnchorIdx (A ++ B) arg.origColumnIndex ac.name =
        (arg.origColumnIndex : Int) - 1 := by
      simp only [afterAnchorIdx, hfind]
    have htoNat : (((arg.origColumnIndex : Int) - 1) + 1).toNat = A.length := by
      rw [hidx]
      omega
    have hins : (A ++ B).insertIdx A.length arg.column = A ++ arg.column :: B := by
      have := insertIdx_append A 0 arg.column B
      simpa using this
    have hcols2 : atRandomResultColumns table.columns arg.origColumnIndex ac.name
        arg.column = A ++ arg.column :: B := by
      unfold atRandomResultColumns
      rw [herase, hip, htoNat, hins]
    rw [hcols2]

/-- Witness for C5: in the table with columns `[b, a, c]`, modifying `a`
(index 1) to the new definition `d` with strategy AFTER `c` yields
`[b, c, d]`. -/
theorem modifyColumnJob_after_position_witness :
    modifyColumnJob moveTable moveArg =
      .ok { moveTable with columns := [colB] ++ [] ++ colC :: colD :: [] } := by
  exact (modifyColumnJob_after_position moveTable moveArg pkColumn colC rfl rfl rfl
    rfl rfl).1 [colB] [] [] pkColumn (by decide) (by decide) (by decide)

/-- A decoded (non-skipped) history row carries a job id strictly above
the dispatcher's last-seen id: the `id <= c.lastDDLID` guard discards
everything else before matching. -/
theorem parseRow_filter (lastDDLID : Int) (row : List String) (j : DdlJob)
    (h : parseRow lastDDLID row = .ok (some j)) : lastDDLID < j.id := by
  unfold parseRow at h
  split at h
  · exact Except.noConfusion h
  · split at h
    · exact Except.noConfusion h
    · split at h
      · exact Except.noConfusion h
      · rename_i id _
        split at h
        · injection h with h
          exact Option.noConfusion h
        · rename_i hgt
          split at h
          · exact Except.noConfusion h
          · split at h
            · injection h with h
              exact Option.noConfusion h
            · split at h
              · injection h with h
                injection h with h
                subst h
                show lastDDLID < _
                simp only []
                omega
              all_goals exact Except.noConfusion h

/-- Every job decoded by getHistoryDDLJobs carries an id strictly above
the last-seen id. -/
theorem getHistoryDDLJobs_filter (lastDDLID : Int) :
    ∀ (rows : List (List String)) (jobs : List DdlJob),
    getHistoryDDLJobs lastDDLID rows = .ok jobs → ∀ j ∈ jobs, lastDDLID < j.id := by
  intro rows
  induction rows with
  | nil =>
    intro jobs h j hj
    unfold getHistoryDDLJobs at h
    injection h with h
    subst h
    cases hj
  | cons row rest ih =>
    intro jobs h j hj
    unfold getHistoryDDLJobs at h
    split at h
    · exact Except.noConfusion h
    · rename_i j? hrow
      split at h
      · exact Except.noConfusion h
      · rename_i js hrest
        cases j? with
        | some j1 =>
          injection h with h
          subst h
          rcases List.mem_cons.mp hj with rfl | hjs
          · exact parseRow_filter lastDDLID row j hrow
          · exact ih js hrest j hjs
        | none =>
          injection h with h
          subst h
          exact ih _ hrest j hj

/-- Appending a match keeps the loop invariant: every matched index
points at a task whose ddl id was stamped from some decoded job, hence
lies strictly above the last-seen id. -/
theorem markMatch_inv (lastDDLID : Int) (st : MatchState) (i : Nat) (t : DdlJobTask)
    (hddl : lastDDLID < t.ddlID) (hi : i < st.tasks.length)
    (hinv : ∀ k ∈ st.matched, ∃ task, st.tasks[k]? = some task ∧ lastDDLID < task.ddlID) :
    ∀ k ∈ (markMatch st i t).matched,
      ∃ task, (markMatch st i t).tasks[k]? = some task ∧ lastDDLID < task.ddlID := by
  intro k hk
  unfold markMatch at hk ⊢
  rcases List.mem_append.mp hk with hk | hk
  · by_cases hki : k = i
    · subst hki
      exact ⟨t, List.getElem?_set_self hi, hddl⟩
    · obtain ⟨task, ht, hlt⟩ := hinv k hk
      refine ⟨task, ?_, hlt⟩
      rw [List.getElem?_set_ne (fun hik => hki hik.symm)]
      exact ht
  · have hk' : k = i := by simpa using hk
    subst hk'
    exact ⟨t, List.getElem?_set_self hi, hddl⟩

/-- The fourth match condition keeps the loop invariant. -/
theorem stmt4_inv (lastDDLID : Int) (job : DdlJob) (st : MatchState) (i : Nat)
    (task : DdlJobTask) (hjob : lastDDLID < job.id) (hi : i < st.tasks.length)
    (hinv : ∀ k ∈ st.matched, ∃ task, st.tasks[k]? = some task ∧ lastDDLID < task.ddlID) :
    ∀ k ∈ (stmt4 job st i task).1.matched,
      ∃ tk, (stmt4 job st i task).1.tasks[k]? = some tk ∧ lastDDLID < tk.ddlID := by
  unfold stmt4 stmt4view stmt4schema
  repeat' split
  all_goals
    first
      | exact hinv
      | exact markMatch_inv lastDDLID st i _ hjob hi hinv

/-- The task loop keeps the invariant for every decoded job. -/
theorem innerLoop_inv (lastDDLID : Int) (job : DdlJob) (hjob : lastDDLID < job.id) :
    ∀ (fuel i : Nat) (st st' : MatchState),
    innerLoop job fuel i st = .ok st' →
    (∀ k ∈ st.matched, ∃ task, st.tasks[k]? = some task ∧ lastDDLID < task.ddlID) →
    (∀ k ∈ st'.matched, ∃ task, st'.tasks[k]? = some task ∧ lastDDLID < task.ddlID) := by
  intro fuel
  induction fuel with
  | zero =>
    intro i st st' h hinv
    unfold innerLoop at h
    injection h with h
    subst h
    exact hinv
  | succ fuel ih =>
    intro i st st' h hinv
    unfold innerLoop at h
    split at h
    · injection h with h
      subst h
      exact hinv
    · rename_i task hi
      have hilen : i < st.tasks.length := (List.getElem?_eq_some.mp hi).1
      split at h
      · split at h
        · exact Except.noConfusion h
        · split at h
          · injection h with h
            subst h
            exact markMatch_inv lastDDLID st i _ hjob hilen hinv
          · exact ih _ _ _ h hinv
      · split at h
        · split at h
          · exact Except.noConfusion h
          · split at h
            · injection h with h
              subst h
              exact markMatch_inv lastDDLID st i _ hjob hilen hinv
            · split at h
              · injection h with h
                subst h
                exact stmt4_inv lastDDLID job st i task hjob hilen hinv
              · exact ih _ _ _ h (stmt4_inv lastDDLID job st i task hjob hilen hinv)
        · split at h
          · split at h
            · exact Except.noConfusion h
            · split at h
              · injection h with h
                subst h
                exact markMatch_inv lastDDLID st i _ hjob hilen hinv
              · split at h
                · injection h with h
                  subst h
                  exact stmt4_inv lastDDLID job st i task hjob hilen hinv
                · exact ih _ _ _ h (stmt4_inv lastDDLID job st i task hjob hilen hinv)
          · split at h
            · injection h with h
              subst h
              exact stmt4_inv lastDDLID job st i task hjob hilen hinv
            · exact ih _ _ _ h (stmt4_inv lastDDLID job st i task hjob hilen hinv)

/-- The history loop keeps the invariant when every decoded job id is
above the last-seen id. -/
theorem outerLoop_inv (lastDDLID : Int) :
    ∀ (jobs : List DdlJob), (∀ j ∈ jobs, lastDDLID < j.id) →
    ∀ (st st' : MatchState), outerLoop jobs st = .ok st' →
    (∀ k ∈ st.matched, ∃ task, st.tasks[k]? = some task ∧ lastDDLID < task.ddlID) →
    (∀ k ∈ st'.matched, ∃ task, st'.tasks[k]? = some task ∧ lastDDLID < task.ddlID) := by
  intro jobs
  induction jobs with
  | nil =>
    intro _ st st' h hinv
    unfold outerLoop at h
    injection h with h
    subst h
    exact hinv
  | cons job rest ih =>
    intro hjobs st st' h hinv
    unfold outerLoop at h
    split at h
    · exact Except.noConfusion h
    · rename_i st1 hinner
      have hinv1 := innerLoop_inv lastDDLID job (hjobs job (by simp)) _ _ _ _ hinner hinv
      split at h
      · injection h with h
        subst h
        exact hinv1
      · exact ih (fun j hj => hjobs j (by simp [hj])) _ _ h hinv1

/-- In a ddl-id-sorted task list the last element bounds every
element. -/
theorem sorted_le_getLast :
    ∀ (l : List DdlJobTask) (m : DdlJobTask), l.Sorted taskLE →
    l.getLast? = some m → ∀ t ∈ l, t.ddlID ≤ m.ddlID := by
  intro l
  induction l with
  | nil =>
    intro m _ hm
    exact absurd hm (by simp)
  | cons a l ih =>
    intro m hs hm t ht
    cases l with
    | nil =>
      have hma : m = a := by simpa using hm.symm
      have hta : t = a := by simpa using ht
      subst hma
      subst hta
      exact le_refl _
    | cons b l2 =>
      rw [List.getLast?_cons_cons] at hm
      obtain ⟨hhead, htail⟩ := List.pairwise_cons.mp hs
      rcases List.mem_cons.mp ht with rfl | ht2
      · exact hhead m (List.mem_of_mem_getLast? hm)
      · exact ih m htail hm t ht2

/-- C3: on every successful call of getSortTask, (a) the decoded history
rows all carry a job id strictly above the incoming lastDDLID — rows at
or below it are discarded before matching; (b) the returned task list is
sorted ascending by ddl job id; (c) the new lastDDLID bounds every
returned task's id and (d) equals the incoming one for an empty result,
(e) is attained by some returned task otherwise; hence (f) lastDDLID
never decreases across batches. -/
theorem getSortTask_monotone (lastDDLID : Int) (rows : List (List String))
    (tasks : List DdlJobTask) (res : SortResult)
    (h : getSortTask lastDDLID rows tasks = .ok res) :
    (∀ jobs, getHistoryDDLJobs lastDDLID rows = .ok jobs →
      ∀ j ∈ jobs, lastDDLID < j.id) ∧
    res.sorted.Sorted taskLE ∧
    (∀ t ∈ res.sorted, t.ddlID ≤ res.newLastDDLID) ∧
    (res.sorted = [] → res.newLastDDLID = lastDDLID) ∧
    (res.sorted ≠ [] → ∃ t ∈ res.sorted, res.newLastDDLID = t.ddlID) ∧
    lastDDLID ≤ res.newLastDDLID := by
  refine ⟨fun jobs hj => getHistoryDDLJobs_filter lastDDLID rows jobs hj, ?_⟩
  unfold getSortTask at h
  cases hjobs : getHistoryDDLJobs lastDDLID rows with
  | error e =>
    rw [hjobs] at h
    exact Except.noConfusion h
  | ok jobs =>
    simp only [hjobs] at h
    cases houter : outerLoop jobs { tasks := tasks, matched := [] } with
    | error p =>
      simp only [houter] at h
      exact Except.noConfusion h
    | ok st =>
      simp only [houter] at h
      by_cases hlen : (sortTasksOf st).length ≠ tasks.length
      · rw [if_pos hlen] at h
        exact Except.noConfusion h
      · rw [if_neg hlen] at h
        injection h with h
        subst h
        have hinv : ∀ k ∈ st.matched,
            ∃ task, st.tasks[k]? = some task ∧ lastDDLID < task.ddlID := by
          refine outerLoop_inv lastDDLID jobs
            (getHistoryDDLJobs_filter lastDDLID rows jobs hjobs) _ _ houter ?_
          intro k hk
          exact absurd hk (List.not_mem_nil k)
        have hmemLift : ∀ t ∈ List.insertionSort taskLE (sortTasksOf st),
            lastDDLID < t.ddlID := by
          intro t ht
          have ht2 : t ∈ sortTasksOf st :=
            ((List.perm_insertionSort taskLE (sortTasksOf st)).mem_iff).mp ht
          unfold sortTasksOf at ht2
          obtain ⟨k, hk, hkt⟩ := List.mem_map.mp ht2
          obtain ⟨task, htask, hlt⟩ := hinv k hk
          rw [htask, Option.getD_some] at hkt
          rw [← hkt]
          exact hlt
        have hsorted : (List.insertionSort taskLE (sortTasksOf st)).Sorted taskLE :=
          List.sorted_insertionSort taskLE (sortTasksOf st)
        cases hm : (List.insertionSort taskLE (sortTasksOf st)).getLast? with
        | none =>
          have hLnil : List.insertionSort taskLE (sortTasksOf st) = [] := by
            rcases hL : List.insertionSort taskLE (sortTasksOf st) with _ | ⟨x, xs⟩
            · rfl
            · rw [hL, List.getLast?_eq_getLast _ (by simp)] at hm
              exact Option.noConfusion hm
          refine ⟨hsorted, ?_, ?_, ?_, ?_⟩
          · intro t ht
            rw [hLnil] at ht
            cases ht
          · intro _
            simp only [hm]
          · intro hne
            exact absurd hLnil hne
          · simp only [hm]
            exact le_refl _
        | some m =>
          have hmmem : m ∈ List.insertionSort taskLE (sortTasksOf st) :=
            List.mem_of_mem_getLast? hm
          refine ⟨hsorted, ?_, ?_, ?_, ?_⟩
          · intro t ht
            simp only [hm]
            exact sorted_le_getLast _ m hsorted hm t ht
          · intro hempty
            rw [show List.insertionSort taskLE (sortTasksOf st) = ([] : List DdlJobTask)
              from hempty] at hm
            exact Option.noConfusion hm
          · intro _
            refine ⟨m, hmmem, ?_⟩
            simp only [hm]
          · simp only [hm]
            exact le_of_lt (hmemLift m hmmem)

/-- Witness for C3 at a concrete successful call: one fresh history row
against a one-task batch sorts the task with ddl id 47 and advances
lastDDLID from 0 to 47. -/
theorem getSortTask_monotone_witness :
    List.Sorted taskLE singleSortResult.sorted ∧
    (0 : Int) ≤ singleSortResult.newLastDDLID := by
  have h := getSortTask_monotone 0 singleRowHistory [dupDropTask] singleSortResult (by rfl)
  exact ⟨h.2.1, h.2.2.2.2.2⟩

/-- C10: a diverging create-schema task — local applier succeeded (it
never fails), server error recorded — drives the divergence diagnostic
into `task.tblInfo.debugPrintToString()` with `tblInfo` nil: a Go
nil-pointer dereference, modelled as the `nilTableFault` outcome.  The
claimed nil-safety of the divergence path does not hold for tasks that
carry only a schemaInfo or viewInfo. -/
theorem execParaReplay_nil_tblInfo_fault :
    execParaReplay createSchemaApply [] [divergingSchemaTask] =
      .nilTableFault divergingSchemaTask.sql := by
  rfl

end Schrddl
